import Mathlib

/-!
Verification development for the gib-tuners-mk2 mesh-alignment core.

The Python sources are embedded shallowly over `ℚ` (idealised real/float
arithmetic).  The opaque geometry kernel (build123d boolean intersection)
is modelled by an explicit probe function `probe : ℚ → ℚ` giving, for a
wheel rotation angle, the measured intersection volume; the code's
`try/except → 0` policy means a probe value is always an ordinary number,
so `float("inf")` only occurs as the initial minimum, modelled by
`Option ℚ` with `none` standing for infinity.

Embedded functions:
* `calculate_mesh_rotation`            — src/src/gib_tuners/components/wheel.py, lines 100-162
* `z_correction`, `calculate_mesh_rotation_analytical`
                                        — wheel.py, lines 165-203
* `classify_interference`, `check_wheel_worm_interference`
                                        — src/src/gib_tuners/utils/validation.py, lines 423-522
* `run_interference_report`, `create_positioned_assembly_gate`
                                        — src/src/gib_tuners/assembly/gang_assembly.py, lines 167-258
-/

/-- Python `int(x)` on a (nonnegative or negative) number: truncation
toward zero. -/
def pyint (q : ℚ) : ℤ := if q < 0 then -⌊-q⌋ else ⌊q⌋

/-- Python `x % m` on floats (for `m > 0`): `x - floor(x/m)*m`, the
representative of `x` modulo `m` lying in `[0, m)`. -/
def pymod (a m : ℚ) : ℚ := a - (⌊a / m⌋ : ℚ) * m

/-- One iteration of the running-minimum loop body of
`calculate_mesh_rotation` (wheel.py lines 129-140 and 148-160): probe the
angle `a` and update `(best_rotation, min_interference)` on strict
improvement.  `none` is the initial `float("inf")`, which any probed
value beats. -/
def probeStep (probe : ℚ → ℚ) (s : ℚ × Option ℚ) (a : ℚ) : ℚ × Option ℚ :=
  match s with
  | (_, none) => (a, some (probe a))
  | (b, some m) => if probe a < m then (a, some (probe a)) else (b, some m)

/-- The running-minimum loop of `calculate_mesh_rotation` over a list of
candidate angles. -/
def searchFold (probe : ℚ → ℚ) (s : ℚ × Option ℚ) (angles : List ℚ) : ℚ × Option ℚ :=
  angles.foldl (probeStep probe) s

/-- Coarse-phase candidate angles (wheel.py line 128):
`[i * coarse_step for i in range(int(tooth_angle / coarse_step) + 1)]`
with `tooth_angle = 360 / num_teeth`. -/
def coarseAngles (num_teeth : ℕ) (coarse_step : ℚ) : List ℚ :=
  (List.range (pyint ((360 / (num_teeth : ℚ)) / coarse_step) + 1).toNat).map
    (fun (i : ℕ) => (i : ℚ) * coarse_step)

/-- wheel.py lines 100-162 (`calculate_mesh_rotation`), with the geometry
probe abstracted: coarse search over `coarseAngles`, then fine search at
`fine_step` resolution within `± coarse_step` of the coarse optimum, each
fine candidate normalised by `% tooth_angle` before probing. -/
def calculate_mesh_rotation (probe : ℚ → ℚ) (num_teeth : ℕ)
    (coarse_step fine_step : ℚ) : ℚ :=
  let tooth_angle : ℚ := 360 / (num_teeth : ℚ)
  let s1 := searchFold probe (0, none) (coarseAngles num_teeth coarse_step)
  let fine_range : ℤ := pyint (coarse_step / fine_step)
  let fine_angles : List ℚ :=
    (List.range (2 * fine_range + 1).toNat).map
      (fun (d : ℕ) => s1.1 + (((d : ℤ) - fine_range : ℤ) : ℚ) * fine_step)
  let s2 := searchFold probe s1 (fine_angles.map (fun a => pymod a tooth_angle))
  s2.1

/-! ### Structural lemmas about the running-minimum fold -/

theorem searchFold_nil (probe : ℚ → ℚ) (s : ℚ × Option ℚ) :
    searchFold probe s [] = s := rfl

theorem searchFold_cons_none (probe : ℚ → ℚ) (b a : ℚ) (xs : List ℚ) :
    searchFold probe (b, none) (a :: xs) = searchFold probe (a, some (probe a)) xs := rfl

/-- Complete case analysis of the running-minimum fold started at a
finite minimum `m₀`: either no probe beats `m₀` and the state is
untouched, or the final best is some listed angle `b` whose probed value
strictly beats `m₀`, strictly beats every angle probed before `b`, and is
less than or equal to every angle probed after `b`. -/
theorem searchFold_cases (probe : ℚ → ℚ) (xs : List ℚ) :
    ∀ b₀ m₀ : ℚ,
      (searchFold probe (b₀, some m₀) xs = (b₀, some m₀) ∧ ∀ x ∈ xs, m₀ ≤ probe x) ∨
      (∃ b l₁ l₂, xs = l₁ ++ b :: l₂ ∧
        searchFold probe (b₀, some m₀) xs = (b, some (probe b)) ∧
        probe b < m₀ ∧ (∀ x ∈ l₁, probe b < probe x) ∧ (∀ x ∈ l₂, probe b ≤ probe x)) := by
  induction xs with
  | nil =>
    intro b₀ m₀
    exact Or.inl ⟨rfl, by simp⟩
  | cons x xs ih =>
    intro b₀ m₀
    have hstep : searchFold probe (b₀, some m₀) (x :: xs)
        = searchFold probe (probeStep probe (b₀, some m₀) x) xs := rfl
    by_cases h : probe x < m₀
    · have hs : probeStep probe (b₀, some m₀) x = (x, some (probe x)) := by
        simp [probeStep, h]
      rcases ih x (probe x) with ⟨heq, hall⟩ | ⟨b, l₁, l₂, hxs, heq, hlt, h₁, h₂⟩
      · refine Or.inr ⟨x, [], xs, by simp, ?_, h, by simp, hall⟩
        rw [hstep, hs]; exact heq
      · refine Or.inr ⟨b, x :: l₁, l₂, by rw [hxs]; rfl, ?_, lt_trans hlt h, ?_, h₂⟩
        · rw [hstep, hs]; exact heq
        · intro y hy
          rcases List.mem_cons.mp hy with rfl | hy'
          · exact hlt
          · exact h₁ y hy'
    · have hs : probeStep probe (b₀, some m₀) x = (b₀, some m₀) := by
        simp [probeStep, h]
      rcases ih b₀ m₀ with ⟨heq, hall⟩ | ⟨b, l₁, l₂, hxs, heq, hlt, h₁, h₂⟩
      · refine Or.inl ⟨?_, ?_⟩
        · rw [hstep, hs]; exact heq
        · intro y hy
          rcases List.mem_cons.mp hy with rfl | hy'
          · exact le_of_not_lt h
          · exact hall y hy'
      · refine Or.inr ⟨b, x :: l₁, l₂, by rw [hxs]; rfl, ?_, hlt, ?_, h₂⟩
        · rw [hstep, hs]; exact heq
        · intro y hy
          rcases List.mem_cons.mp hy with rfl | hy'
          · exact lt_of_lt_of_le hlt (le_of_not_lt h)
          · exact h₁ y hy'

/-- Running the fold from the `float("inf")` initial state over a
nonempty list: the final best is a listed angle, the final minimum is its
probed value, every angle listed before it probes strictly higher, and
every angle after probes at least as high. -/
theorem searchFold_none_spec (probe : ℚ → ℚ) (a : ℚ) (rest : List ℚ) (b₀ : ℚ) :
    ∃ b l₁ l₂, a :: rest = l₁ ++ b :: l₂ ∧
      searchFold probe (b₀, none) (a :: rest) = (b, some (probe b)) ∧
      (∀ x ∈ l₁, probe b < probe x) ∧ (∀ x ∈ l₂, probe b ≤ probe x) := by
  have h1 : searchFold probe (b₀, none) (a :: rest)
      = searchFold probe (a, some (probe a)) rest := rfl
  rcases searchFold_cases probe rest a (probe a) with ⟨heq, hall⟩ | ⟨b, l₁, l₂, hxs, heq, hlt, hl₁, hl₂⟩
  · refine ⟨a, [], rest, by simp, ?_, by simp, hall⟩
    rw [h1]; exact heq
  · refine ⟨b, a :: l₁, l₂, by rw [hxs]; rfl, ?_, ?_, hl₂⟩
    · rw [h1]; exact heq
    · intro y hy
      rcases List.mem_cons.mp hy with rfl | hy'
      · exact hlt
      · exact hl₁ y hy'

/-- The best angle found over a nonempty list probes no higher than any
listed angle. -/
theorem searchFold_none_min_le (probe : ℚ → ℚ) (a : ℚ) (rest : List ℚ) (b₀ : ℚ)
    (b : ℚ) (hb : searchFold probe (b₀, none) (a :: rest) = (b, some (probe b))) :
    ∀ x ∈ a :: rest, probe b ≤ probe x := by
  obtain ⟨b', l₁, l₂, hxs, heq, hl₁, hl₂⟩ := searchFold_none_spec probe a rest b₀
  have hbb : b = b' := by
    have := hb.symm.trans heq
    exact congrArg Prod.fst this
  subst hbb
  intro x hx
  rw [hxs] at hx
  rcases List.mem_append.mp hx with hx₁ | hx₂
  · exact le_of_lt (hl₁ x hx₁)
  · rcases List.mem_cons.mp hx₂ with rfl | hx₃
    · exact le_rfl
    · exact hl₂ x hx₃

/-! ### Arithmetic facts about the candidate-angle lists -/

theorem pyint_eq_floor {q : ℚ} (h : 0 ≤ q) : pyint q = ⌊q⌋ := by
  simp [pyint, not_lt.mpr h]

theorem pitch_pos {nt : ℕ} (h : 0 < nt) : (0 : ℚ) < 360 / (nt : ℚ) := by
  have : (0 : ℚ) < (nt : ℚ) := by exact_mod_cast h
  positivity

theorem coarse_cons {nt : ℕ} {cs : ℚ} (hnt : 0 < nt) (hcs : 0 < cs) :
    ∃ rest, coarseAngles nt cs = 0 :: rest := by
  have hx : (0 : ℚ) ≤ (360 / (nt : ℚ)) / cs := le_of_lt (div_pos (pitch_pos hnt) hcs)
  have hfl : 0 ≤ ⌊(360 / (nt : ℚ)) / cs⌋ := Int.floor_nonneg.mpr hx
  have hcount : (pyint ((360 / (nt : ℚ)) / cs) + 1).toNat
      = (⌊(360 / (nt : ℚ)) / cs⌋).toNat + 1 := by
    rw [pyint_eq_floor hx]; omega
  refine ⟨((List.range (⌊(360 / (nt : ℚ)) / cs⌋).toNat).map Nat.succ).map
    (fun (i : ℕ) => (i : ℚ) * cs), ?_⟩
  rw [coarseAngles, hcount, List.range_succ_eq_map]
  simp

theorem mem_map_range {α : Type} (n : ℕ) (f : ℕ → α) (q : α) :
    q ∈ (List.range n).map f ↔ ∃ i : ℕ, i < n ∧ f i = q := by
  constructor
  · intro h
    obtain ⟨i, hi, hf⟩ := (@List.mem_map ℕ α q f (List.range n)).mp h
    exact ⟨i, List.mem_range.mp hi, hf⟩
  · rintro ⟨i, hi, hf⟩
    exact (@List.mem_map ℕ α q f (List.range n)).mpr ⟨i, List.mem_range.mpr hi, hf⟩

theorem coarse_mem_iff {nt : ℕ} {cs : ℚ} (hnt : 0 < nt) (hcs : 0 < cs) (q : ℚ) :
    q ∈ coarseAngles nt cs ↔ ∃ i : ℕ, q = (i : ℚ) * cs ∧ q ≤ 360 / (nt : ℚ) := by
  have hx : (0 : ℚ) ≤ (360 / (nt : ℚ)) / cs := le_of_lt (div_pos (pitch_pos hnt) hcs)
  have hfl : 0 ≤ ⌊(360 / (nt : ℚ)) / cs⌋ := Int.floor_nonneg.mpr hx
  rw [coarseAngles, mem_map_range]
  constructor
  · rintro ⟨i, hi, rfl⟩
    refine ⟨i, rfl, ?_⟩
    rw [pyint_eq_floor hx] at hi
    have hiz : (i : ℤ) ≤ ⌊(360 / (nt : ℚ)) / cs⌋ := by omega
    have hiq : (i : ℚ) ≤ (360 / (nt : ℚ)) / cs := by
      have := (Int.le_floor).mp hiz
      exact_mod_cast this
    calc (i : ℚ) * cs ≤ ((360 / (nt : ℚ)) / cs) * cs :=
          mul_le_mul_of_nonneg_right hiq (le_of_lt hcs)
      _ = 360 / (nt : ℚ) := div_mul_cancel₀ _ (ne_of_gt hcs)
  · rintro ⟨i, rfl, hle⟩
    refine ⟨i, ?_, rfl⟩
    have hiq : (i : ℚ) ≤ (360 / (nt : ℚ)) / cs := (le_div_iff₀ hcs).mpr hle
    have hiz : (i : ℤ) ≤ ⌊(360 / (nt : ℚ)) / cs⌋ := Int.le_floor.mpr (by exact_mod_cast hiq)
    rw [pyint_eq_floor hx]
    omega

theorem coarse_mem_bounds {nt : ℕ} {cs : ℚ} (hnt : 0 < nt) (hcs : 0 < cs)
    {q : ℚ} (hq : q ∈ coarseAngles nt cs) : 0 ≤ q ∧ q ≤ 360 / (nt : ℚ) := by
  obtain ⟨i, rfl, hle⟩ := (coarse_mem_iff hnt hcs q).mp hq
  exact ⟨mul_nonneg (by positivity) (le_of_lt hcs), hle⟩

theorem pymod_nonneg {m : ℚ} (hm : 0 < m) (a : ℚ) : 0 ≤ pymod a m := by
  rw [pymod, sub_nonneg]
  have h := Int.floor_le (a / m)
  calc (⌊a / m⌋ : ℚ) * m ≤ (a / m) * m := mul_le_mul_of_nonneg_right h (le_of_lt hm)
    _ = a := div_mul_cancel₀ _ (ne_of_gt hm)

theorem pymod_lt {m : ℚ} (hm : 0 < m) (a : ℚ) : pymod a m < m := by
  rw [pymod, sub_lt_iff_lt_add]
  have h := Int.lt_floor_add_one (a / m)
  have := mul_lt_mul_of_pos_right h hm
  rw [div_mul_cancel₀ _ (ne_of_gt hm)] at this
  calc a < ((⌊a / m⌋ : ℚ) + 1) * m := this
    _ = m + (⌊a / m⌋ : ℚ) * m := by ring

theorem pymod_eq_self {a m : ℚ} (h0 : 0 ≤ a) (h1 : a < m) : pymod a m = a := by
  have hm : 0 < m := lt_of_le_of_lt h0 h1
  have : ⌊a / m⌋ = 0 := by
    rw [Int.floor_eq_zero_iff]
    constructor
    · exact div_nonneg h0 (le_of_lt hm)
    · exact (div_lt_one hm).mpr h1
  rw [pymod, this]
  simp

/-- Structure of a full `calculate_mesh_rotation` run: the coarse phase
returns a listed coarse angle `b₁` whose probed volume is minimal over
the coarse list (strictly better than angle 0 whenever `b₁ ≠ 0`), and
the final result either is `b₁` itself or is a `% tooth_angle`
normalised fine candidate; its probed volume never exceeds `probe b₁`. -/
theorem calculate_mesh_rotation_spec (probe : ℚ → ℚ) (nt : ℕ) (cs fs : ℚ)
    (hnt : 0 < nt) (hcs : 0 < cs) :
    ∃ b₁, searchFold probe (0, none) (coarseAngles nt cs) = (b₁, some (probe b₁)) ∧
      b₁ ∈ coarseAngles nt cs ∧
      (∀ x ∈ coarseAngles nt cs, probe b₁ ≤ probe x) ∧
      (calculate_mesh_rotation probe nt cs fs = b₁ ∨
        (∃ a, calculate_mesh_rotation probe nt cs fs = pymod a (360 / (nt : ℚ)))) ∧
      probe (calculate_mesh_rotation probe nt cs fs) ≤ probe b₁ ∧
      (b₁ ≠ 0 → probe b₁ < probe 0) := by
  obtain ⟨rest, hrest⟩ := coarse_cons hnt hcs
  obtain ⟨b, l₁, l₂, hxs, heq, hl₁, hl₂⟩ := searchFold_none_spec probe 0 rest 0
  have hs1 : searchFold probe (0, none) (coarseAngles nt cs) = (b, some (probe b)) := by
    rw [hrest]; exact heq
  have hbmem : b ∈ coarseAngles nt cs := by
    rw [hrest, hxs]
    exact List.mem_append.mpr (Or.inr (List.mem_cons_self _ _))
  have hmin : ∀ x ∈ coarseAngles nt cs, probe b ≤ probe x := by
    rw [hrest]
    exact searchFold_none_min_le probe 0 rest 0 b heq
  have hne : b ≠ 0 → probe b < probe 0 := by
    intro hb
    cases l₁ with
    | nil =>
      exfalso
      apply hb
      have : (0 : ℚ) :: rest = b :: l₂ := by simpa using hxs
      exact (List.cons.injEq _ _ _ _ ▸ this).1.symm
    | cons y l₁' =>
      have hy : y = 0 := by
        have : (0 : ℚ) :: rest = y :: (l₁' ++ b :: l₂) := by simpa using hxs
        exact ((List.cons.injEq _ _ _ _ ▸ this).1).symm
      have := hl₁ y (List.mem_cons_self _ _)
      rwa [hy] at this
  have hr : calculate_mesh_rotation probe nt cs fs
      = (searchFold probe (searchFold probe (0, none) (coarseAngles nt cs))
          (((List.range (2 * pyint (cs / fs) + 1).toNat).map
            (fun (d : ℕ) => (searchFold probe (0, none) (coarseAngles nt cs)).1
              + (((d : ℤ) - pyint (cs / fs) : ℤ) : ℚ) * fs)).map
            (fun a => pymod a (360 / (nt : ℚ))))).1 := rfl
  rw [hs1] at hr
  rcases searchFold_cases probe
      (((List.range (2 * pyint (cs / fs) + 1).toNat).map
        (fun (d : ℕ) => (b, some (probe b)).1 + (((d : ℤ) - pyint (cs / fs) : ℤ) : ℚ) * fs)).map
        (fun a => pymod a (360 / (nt : ℚ)))) b (probe b) with
    hcase | hcase
  · obtain ⟨heq2, _⟩ := hcase
    rw [heq2] at hr
    refine ⟨b, hs1, hbmem, hmin, Or.inl hr, ?_, hne⟩
    rw [hr]
  · obtain ⟨b', l₁', l₂', hxs', heq2, hlt', _, _⟩ := hcase
    rw [heq2] at hr
    have hb'mem : b' ∈ ((List.range (2 * pyint (cs / fs) + 1).toNat).map
        (fun (d : ℕ) => (b, some (probe b)).1 + (((d : ℤ) - pyint (cs / fs) : ℤ) : ℚ) * fs)).map
        (fun a => pymod a (360 / (nt : ℚ))) := by
      rw [hxs']
      exact List.mem_append.mpr (Or.inr (List.mem_cons_self _ _))
    obtain ⟨a, _, ha⟩ := List.mem_map.mp hb'mem
    refine ⟨b, hs1, hbmem, hmin, Or.inr ⟨a, by rw [hr, ← ha]⟩, ?_, hne⟩
    rw [hr]
    exact le_of_lt hlt'

/-! ### Claims about RotationSearch (C1, C4, C6) -/

/-- Adversarial probe used to exhibit the pitch-boundary behaviour of the
coarse phase: minimal measured volume exactly at 36°. -/
def probeCex (a : ℚ) : ℚ := if a = 36 then 0 else 1

/-- C1 (counterexample). For `num_teeth = 10` the tooth pitch `36°` is an
exact multiple of `coarse_step = 1`, the coarse phase probes `36°`
itself, and with a probe whose minimum sits exactly there the search
returns `36° = 360/num_teeth`: the returned rotation is NOT strictly
less than the tooth pitch, refuting the claimed half-open bound. -/
theorem c1_counterexample :
    calculate_mesh_rotation probeCex 10 1 (1/10) = 360 / ((10 : ℕ) : ℚ) ∧
    ¬ (calculate_mesh_rotation probeCex 10 1 (1/10) < 360 / ((10 : ℕ) : ℚ)) := by
  have h10 : 0 < 10 := by norm_num
  have hcs : (0 : ℚ) < 1 := by norm_num
  obtain ⟨b₁, hs1, hmem, hmin, hr, hrle, hne⟩ :=
    calculate_mesh_rotation_spec probeCex 10 1 (1/10) h10 hcs
  have hpitch : (360 / ((10 : ℕ) : ℚ)) = 36 := by norm_num
  have hnn : ∀ x, 0 ≤ probeCex x := by
    intro x
    unfold probeCex
    split <;> norm_num
  have h36mem : (36 : ℚ) ∈ coarseAngles 10 1 := by
    rw [coarse_mem_iff h10 hcs]
    exact ⟨36, by norm_num, by norm_num⟩
  have h36 : probeCex 36 = 0 := by
    unfold probeCex
    norm_num
  have hb0 : probeCex b₁ = 0 := by
    have h1 := hmin 36 h36mem
    rw [h36] at h1
    exact le_antisymm h1 (hnn b₁)
  have hb1 : b₁ = 36 := by
    by_contra hbne
    have : probeCex b₁ = 1 := by
      unfold probeCex
      rw [if_neg hbne]
    rw [this] at hb0
    norm_num at hb0
  have hres : calculate_mesh_rotation probeCex 10 1 (1/10) = 36 := by
    rcases hr with hrb | ⟨a, hra⟩
    · rw [hrb, hb1]
    · exfalso
      have hrlt : pymod a (360 / ((10 : ℕ) : ℚ)) < 360 / ((10 : ℕ) : ℚ) :=
        pymod_lt (by rw [hpitch]; norm_num) a
      have hprobe : probeCex (calculate_mesh_rotation probeCex 10 1 (1/10)) = 0 := by
        rw [hb0] at hrle
        exact le_antisymm hrle (hnn _)
      have hr36 : calculate_mesh_rotation probeCex 10 1 (1/10) = 36 := by
        by_contra hne2
        have h1 : probeCex (calculate_mesh_rotation probeCex 10 1 (1/10)) = 1 := if_neg hne2
        rw [h1] at hprobe
        norm_num at hprobe
      rw [hra] at hr36
      rw [hpitch] at hr36 hrlt
      rw [hr36] at hrlt
      exact lt_irrefl _ hrlt
  constructor
  · rw [hres, hpitch]
  · rw [hres, hpitch]
    norm_num

/-- C1 (amended). For every probe and `num_teeth > 0` (positive coarse
step), the returned rotation lies in the closed interval
`[0, 360/num_teeth]`; it is strictly below the tooth pitch whenever the
probe at the tooth pitch measures at least as much as the probe at 0 (in
particular for any pitch-periodic probe).  Equality with the tooth pitch
is reachable only in the boundary situation of `c1_counterexample`. -/
theorem c1_result_within_pitch (probe : ℚ → ℚ) (nt : ℕ) (cs fs : ℚ)
    (hnt : 0 < nt) (hcs : 0 < cs) :
    0 ≤ calculate_mesh_rotation probe nt cs fs ∧
    calculate_mesh_rotation probe nt cs fs ≤ 360 / (nt : ℚ) ∧
    (probe 0 ≤ probe (360 / (nt : ℚ)) →
      calculate_mesh_rotation probe nt cs fs < 360 / (nt : ℚ)) := by
  obtain ⟨b₁, hs1, hmem, hmin, hr, hrle, hne⟩ :=
    calculate_mesh_rotation_spec probe nt cs fs hnt hcs
  have hp : 0 < 360 / (nt : ℚ) := pitch_pos hnt
  rcases hr with hrb | ⟨a, hra⟩
  · obtain ⟨hb0, hble⟩ := coarse_mem_bounds hnt hcs hmem
    refine ⟨by rw [hrb]; exact hb0, by rw [hrb]; exact hble, ?_⟩
    intro hper
    rw [hrb]
    rcases lt_or_eq_of_le hble with h | h
    · exact h
    · exfalso
      have hb₁ne : b₁ ≠ 0 := by rw [h]; exact ne_of_gt hp
      have h1 := hne hb₁ne
      rw [h] at h1
      exact absurd (lt_of_lt_of_le h1 hper) (lt_irrefl _)
  · have h0 := pymod_nonneg hp a
    have hlt := pymod_lt hp a
    refine ⟨by rw [hra]; exact h0, by rw [hra]; exact le_of_lt hlt, ?_⟩
    intro _
    rw [hra]
    exact hlt

/-- Witness for `c1_result_within_pitch` at `num_teeth = 13`,
`coarse_step = 1`, `fine_step = 0.1` with the constant probe. -/
theorem c1_witness :
    0 ≤ calculate_mesh_rotation (fun _ => (1 : ℚ)) 13 1 (1/10) ∧
    calculate_mesh_rotation (fun _ => (1 : ℚ)) 13 1 (1/10) ≤ 360 / ((13 : ℕ) : ℚ) ∧
    ((fun _ => (1 : ℚ)) 0 ≤ (fun _ => (1 : ℚ)) (360 / ((13 : ℕ) : ℚ)) →
      calculate_mesh_rotation (fun _ => (1 : ℚ)) 13 1 (1/10) < 360 / ((13 : ℕ) : ℚ)) :=
  c1_result_within_pitch (fun _ => (1 : ℚ)) 13 1 (1/10) (by norm_num) (by norm_num)

/-- C4. The coarse phase probes exactly the multiples of `coarse_step`
lying in `[0, tooth_pitch]` (inclusive upper boundary); for
`num_teeth = 13` with `coarse_step = 1` that is exactly 28 probes; and
the coarse running minimum keeps the earliest angle attaining the
minimal probed volume (strict improvement required: every earlier listed
angle probes strictly higher, every later one at least as high). -/
theorem c4_coarse_phase (probe : ℚ → ℚ) (nt : ℕ) (cs : ℚ)
    (hnt : 0 < nt) (hcs : 0 < cs) :
    (∀ q : ℚ, q ∈ coarseAngles nt cs ↔ ∃ i : ℕ, q = (i : ℚ) * cs ∧ q ≤ 360 / (nt : ℚ)) ∧
    (coarseAngles 13 1).length = 28 ∧
    (∃ b l₁ l₂, coarseAngles nt cs = l₁ ++ b :: l₂ ∧
      searchFold probe (0, none) (coarseAngles nt cs) = (b, some (probe b)) ∧
      (∀ x ∈ l₁, probe b < probe x) ∧ (∀ x ∈ l₂, probe b ≤ probe x)) := by
  refine ⟨fun q => coarse_mem_iff hnt hcs q, ?_, ?_⟩
  · have hlen : (coarseAngles 13 1).length
        = (pyint ((360 / ((13 : ℕ) : ℚ)) / 1) + 1).toNat := by
      rw [coarseAngles, List.length_map, List.length_range]
    rw [hlen]
    have h27 : pyint ((360 / ((13 : ℕ) : ℚ)) / 1) = 27 := by
      rw [pyint_eq_floor (by norm_num)]
      norm_num
    rw [h27]
    rfl
  · obtain ⟨rest, hrest⟩ := coarse_cons hnt hcs
    rw [hrest]
    exact searchFold_none_spec probe 0 rest 0

/-- Witness for `c4_coarse_phase` at `num_teeth = 13`, `coarse_step = 1`
with the constant probe. -/
theorem c4_witness :
    (∀ q : ℚ, q ∈ coarseAngles 13 1 ↔ ∃ i : ℕ, q = (i : ℚ) * 1 ∧ q ≤ 360 / ((13 : ℕ) : ℚ)) ∧
    (coarseAngles 13 1).length = 28 ∧
    (∃ b l₁ l₂, coarseAngles 13 1 = l₁ ++ b :: l₂ ∧
      searchFold (fun _ => (2 : ℚ)) (0, none) (coarseAngles 13 1) = (b, some ((fun _ => (2 : ℚ)) b)) ∧
      (∀ x ∈ l₁, (2 : ℚ) < 2) ∧ (∀ x ∈ l₂, (2 : ℚ) ≤ 2)) :=
  c4_coarse_phase (fun _ => (2 : ℚ)) 13 1 (by norm_num) (by norm_num)

/-- C6. No-worse-than-baseline: for every deterministic probe, positive
coarse step and `num_teeth > 0`, the probed interference volume at the
returned rotation never exceeds the probed volume at angle 0 (angle 0 is
probed first and the running minimum only decreases). -/
theorem c6_no_worse_than_baseline (probe : ℚ → ℚ) (nt : ℕ) (cs fs : ℚ)
    (hnt : 0 < nt) (hcs : 0 < cs) :
    probe (calculate_mesh_rotation probe nt cs fs) ≤ probe 0 := by
  obtain ⟨b₁, hs1, hmem, hmin, hr, hrle, hne⟩ :=
    calculate_mesh_rotation_spec probe nt cs fs hnt hcs
  obtain ⟨rest, hrest⟩ := coarse_cons hnt hcs
  have h0mem : (0 : ℚ) ∈ coarseAngles nt cs := by
    rw [hrest]
    exact List.mem_cons_self _ _
  exact le_trans hrle (hmin 0 h0mem)

/-- Witness for `c6_no_worse_than_baseline` at `num_teeth = 13` with the
constant probe. -/
theorem c6_witness :
    (fun _ => (3 : ℚ)) (calculate_mesh_rotation (fun _ => (3 : ℚ)) 13 1 (1/10))
      ≤ (fun _ => (3 : ℚ)) 0 :=
  c6_no_worse_than_baseline (fun _ => (3 : ℚ)) 13 1 (1/10) (by norm_num) (by norm_num)

/-! ### Analytical Z-offset corrector (wheel.py lines 165-203) -/

/-- wheel.py lines 194-196: the Z-offset correction term.
`z_correction = 0.0; if z_offset != 0.0: z_correction =
(z_offset / lead) * (360.0 / num_teeth)`. -/
def z_correction (num_teeth : ℕ) (lead z_offset : ℚ) : ℚ :=
  if z_offset ≠ 0 then (z_offset / lead) * (360 / (num_teeth : ℚ)) else 0

/-- wheel.py lines 165-203 (`calculate_mesh_rotation_analytical`):
base estimate `180 / num_teeth`, plus/minus the Z-offset correction,
both normalised `% tooth_pitch`. -/
def calculate_mesh_rotation_analytical (num_teeth : ℕ) (lead z_offset : ℚ) : ℚ × ℚ :=
  let base : ℚ := 180 / (num_teeth : ℚ)
  let tooth_pitch : ℚ := 360 / (num_teeth : ℚ)
  (pymod (base + z_correction num_teeth lead z_offset) tooth_pitch,
   pymod (base - z_correction num_teeth lead z_offset) tooth_pitch)

/-- Modelled from the spec (§4.2): `effective_axial_shift = z_offset · tan λ`,
`worm_rotation_equivalent_deg = (shift / L) · 360°`,
`wheel_rotation_correction_deg = worm_rotation_equivalent_deg / r`.
The argument `t` stands for `tan λ`. -/
def spec_correction (z_offset L t r : ℚ) : ℚ := ((z_offset * t) / L) * 360 / r

/-- C2 (counterexample).  At `num_teeth = 13`, `z_offset = 1`, `lead = 1`,
the code's correction term is `360/13`, which differs from the spec
formula `((z_offset · tan λ)/L)·360/r` evaluated at the (geometrically
admissible) `tan λ = 1/2`, `r = 13`, namely `180/13`: the code never
multiplies by `tan λ` (and uses `num_teeth` where the spec says gear
ratio). -/
theorem c2_counterexample :
    z_correction 13 1 1 ≠ spec_correction 1 1 (1/2) 13 := by
  have h1 : z_correction 13 1 1 = 360 / ((13 : ℕ) : ℚ) := by
    rw [z_correction, if_pos (by norm_num : (1 : ℚ) ≠ 0)]
    norm_num
  rw [h1, spec_correction]
  norm_num

/-- C2 (amended).  The corrector's correction term coincides with the
spec formula only with `tan λ` taken as `1` and the gear ratio taken as
`num_teeth`: `z_correction = (z_offset / L) * (360 / num_teeth)
= spec_correction z_offset L 1 num_teeth`, and the function returns the
base estimate plus and minus this correction, each reduced modulo the
tooth pitch. -/
theorem c2_correction_formula (nt : ℕ) (L z : ℚ) :
    z_correction nt L z = spec_correction z L 1 (nt : ℚ) ∧
    calculate_mesh_rotation_analytical nt L z =
      (pymod (180 / (nt : ℚ) + z_correction nt L z) (360 / (nt : ℚ)),
       pymod (180 / (nt : ℚ) - z_correction nt L z) (360 / (nt : ℚ))) := by
  constructor
  · rw [z_correction, spec_correction]
    by_cases hz : z ≠ 0
    · rw [if_pos hz]
      ring
    · rw [if_neg hz]
      push_neg at hz
      rw [hz]
      ring
  · rfl

/-- C8.  With `z_offset = 0` the correction is exactly `0`, so both
returned rotations equal the base estimate `180/num_teeth` reduced
modulo the tooth pitch (which leaves it unchanged), for every lead. -/
theorem c8_zero_offset (nt : ℕ) (lead : ℚ) (hnt : 0 < nt) :
    z_correction nt lead 0 = 0 ∧
    calculate_mesh_rotation_analytical nt lead 0 = (180 / (nt : ℚ), 180 / (nt : ℚ)) := by
  have hz : z_correction nt lead 0 = 0 := by
    rw [z_correction, if_neg]
    simp
  refine ⟨hz, ?_⟩
  have h0 : (0 : ℚ) < (nt : ℚ) := by exact_mod_cast hnt
  have hb : (0 : ℚ) ≤ 180 / (nt : ℚ) := by positivity
  have hdiff : 360 / (nt : ℚ) - 180 / (nt : ℚ) = 180 / (nt : ℚ) := by ring
  have hpos : (0 : ℚ) < 180 / (nt : ℚ) := div_pos (by norm_num) h0
  have hlt : 180 / (nt : ℚ) < 360 / (nt : ℚ) := by linarith
  have hcalc : calculate_mesh_rotation_analytical nt lead 0 =
      (pymod (180 / (nt : ℚ) + z_correction nt lead 0) (360 / (nt : ℚ)),
       pymod (180 / (nt : ℚ) - z_correction nt lead 0) (360 / (nt : ℚ))) := rfl
  rw [hcalc, hz, add_zero, sub_zero, pymod_eq_self hb hlt]

/-- Witness for `c8_zero_offset` at `num_teeth = 13`, `lead = 7`. -/
theorem c8_witness :
    z_correction 13 7 0 = 0 ∧
    calculate_mesh_rotation_analytical 13 7 0 = (180 / ((13 : ℕ) : ℚ), 180 / ((13 : ℕ) : ℚ)) :=
  c8_zero_offset 13 7 (by norm_num)

/-! ### Interference classifier (validation.py lines 493-522) -/

/-- Tiered interference verdict (§4.3 of the spec); in the code the four
tiers appear as the four message branches of
`check_wheel_worm_interference` (validation.py lines 507-514). -/
inductive InterferenceVerdict where
  | NONE
  | WITHIN_BACKLASH
  | WITHIN_MANUFACTURING
  | EXCEEDS
deriving DecidableEq, Repr

/-- validation.py lines 500-514: the verdict determined by the computed
`within_backlash`/`within_manufacturing` flags and the `if/elif/else`
message chain: `if volume == 0.0` / `elif volume <= backlash_tol` /
`elif volume <= manufacturing_tol` / `else`. -/
def classify_interference (volume backlash_tol manufacturing_tol : ℚ) : InterferenceVerdict :=
  if volume = 0 then .NONE
  else if volume ≤ backlash_tol then .WITHIN_BACKLASH
  else if volume ≤ manufacturing_tol then .WITHIN_MANUFACTURING
  else .EXCEEDS

/-- Modelled from the spec (§4.3), the ordered first-match policy:
`volume == 0 → NONE`; `0 < volume ≤ backlash → WITHIN_BACKLASH`;
`backlash < volume ≤ manufacturing → WITHIN_MANUFACTURING`;
`volume > manufacturing → EXCEEDS`; no matching clause otherwise. -/
def spec_first_match (volume backlash_tol manufacturing_tol : ℚ) : Option InterferenceVerdict :=
  if volume = 0 then some .NONE
  else if 0 < volume ∧ volume ≤ backlash_tol then some .WITHIN_BACKLASH
  else if backlash_tol < volume ∧ volume ≤ manufacturing_tol then some .WITHIN_MANUFACTURING
  else if manufacturing_tol < volume then some .EXCEEDS
  else none

/-- C5.  For every nonnegative volume the code's classification agrees
with the spec's ordered first-match policy (some clause always matches),
and in particular volume `0.05` with backlash budget `0.1` and
manufacturing budget `1.0` is classified `WITHIN_BACKLASH`. -/
theorem c5_classifier (v b m : ℚ) (hv : 0 ≤ v) :
    spec_first_match v b m = some (classify_interference v b m) ∧
    classify_interference (5/100) (1/10) 1 = InterferenceVerdict.WITHIN_BACKLASH := by
  constructor
  · rw [spec_first_match, classify_interference]
    by_cases h0 : v = 0
    · rw [if_pos h0, if_pos h0]
    · have hpos : 0 < v := lt_of_le_of_ne hv (Ne.symm h0)
      rw [if_neg h0, if_neg h0]
      by_cases hb : v ≤ b
      · rw [if_pos ⟨hpos, hb⟩, if_pos hb]
      · have hbv : b < v := not_le.mp hb
        rw [if_neg (by intro hc; exact hb hc.2), if_neg hb]
        by_cases hm : v ≤ m
        · rw [if_pos ⟨hbv, hm⟩, if_pos hm]
        · rw [if_neg (by intro hc; exact hm hc.2), if_neg hm,
            if_pos (not_le.mp hm)]
  · rw [classify_interference]
    rw [if_neg (by norm_num), if_pos (by norm_num)]

/-- Witness for `c5_classifier` at the Scenario C input. -/
theorem c5_witness :
    spec_first_match (5/100) (1/10) 1 = some (classify_interference (5/100) (1/10) 1) ∧
    classify_interference (5/100) (1/10) 1 = InterferenceVerdict.WITHIN_BACKLASH :=
  c5_classifier (5/100) (1/10) 1 (by norm_num)

/-! ### Wheel/worm interference check (validation.py lines 423-522) -/

/-- validation.py lines 396-405: result record of
`check_wheel_worm_interference`. -/
structure InterferenceResult where
  mesh_rotation_deg : ℚ
  interference_volume_mm3 : ℚ
  within_backlash_tolerance : Bool
  within_manufacturing_tolerance : Bool
  message : String
deriving DecidableEq, Repr

/-- validation.py lines 423-522 (`check_wheel_worm_interference`).
STEP loading is abstracted by the two Booleans (`_load_step_as_part`
returned a part or `None`); the geometry query by `probed_volume` (the
`try/except → 0.0` already applied); float formatting `f"{v:.4f}"` by
`fmt`.  `gear_backlash`, `face_width` and `scale` are the configuration
inputs of the tolerance derivation (lines 443-445, 499, 504). -/
def check_wheel_worm_interference (wheel_loaded worm_loaded : Bool)
    (probed_volume : ℚ) (gear_backlash face_width scale : ℚ)
    (mesh_rotation_deg : ℚ) (wheel_path worm_path : String)
    (fmt : ℚ → String) : InterferenceResult :=
  let backlash := gear_backlash * scale
  if wheel_loaded = false then
    { mesh_rotation_deg := mesh_rotation_deg
      interference_volume_mm3 := 0
      within_backlash_tolerance := false
      within_manufacturing_tolerance := false
      message := "Could not load wheel STEP: " ++ wheel_path }
  else if worm_loaded = false then
    { mesh_rotation_deg := mesh_rotation_deg
      interference_volume_mm3 := 0
      within_backlash_tolerance := false
      within_manufacturing_tolerance := false
      message := "Could not load worm STEP: " ++ worm_path }
  else
    let interference_volume := probed_volume
    let backlash_volume_tolerance := backlash * face_width * scale
    let within_backlash := decide (interference_volume ≤ backlash_volume_tolerance)
    let manufacturing_volume_tolerance := 1 * scale ^ 3
    let within_manufacturing := decide (interference_volume ≤ manufacturing_volume_tolerance)
    let message :=
      if interference_volume = 0 then
        "No interference detected - perfect mesh or no contact"
      else if within_backlash then
        "Interference " ++ fmt interference_volume ++ "mm³ within backlash tolerance"
      else if within_manufacturing then
        "Interference " ++ fmt interference_volume ++ "mm³ within manufacturing tolerance"
      else
        "Interference " ++ fmt interference_volume ++ "mm³ exceeds tolerances - teeth may collide"
    { mesh_rotation_deg := mesh_rotation_deg
      interference_volume_mm3 := interference_volume
      within_backlash_tolerance := within_backlash
      within_manufacturing_tolerance := within_manufacturing
      message := message }

/-! ### Assembly interference aggregator (gang_assembly.py lines 167-258) -/

/-- Python `desc.replace(" ", "_")` for the check descriptors. -/
def replaceSpaces (s : String) : String :=
  ⟨s.data.map (fun c => if c = ' ' then '_' else c)⟩

/-- gang_assembly.py lines 228-233: the four named per-station checks
`(name_a, name_b, desc)` for tuner number `t`. -/
def checksFor (t : ℕ) : List (String × String × String) :=
  [ ("wheel_" ++ toString t, "peg_head_" ++ toString t, "gear mesh"),
    ("string_post_" ++ toString t, "frame", "post in hole"),
    ("peg_head_" ++ toString t, "frame", "worm in hole"),
    ("wheel_" ++ toString t, "frame", "wheel in cavity") ]

/-- gang_assembly.py line 238: `f"tuner_{tuner_num}_{desc.replace(' ', '_')}"`. -/
def checkKey (t : ℕ) (desc : String) : String :=
  "tuner_" ++ toString t ++ "_" ++ replaceSpaces desc

/-- gang_assembly.py lines 235-244: the breakdown entries produced for
one tuner.  `presence` models membership of a part name in the
assembly's `all_parts` dict; `vol` models `check_interference` between
two named parts (kernel failures already normalised to `0.0`).  A check
whose part names are not both present produces no entry. -/
def stationEntries (presence : String → Bool) (vol : String → String → ℚ) (t : ℕ) :
    List (String × ℚ) :=
  (checksFor t).filterMap (fun c =>
    if presence c.1 && presence c.2.1 then some (checkKey t c.2.2, vol c.1 c.2.1) else none)

/-- gang_assembly.py line 240: `tuner_total`, the per-station subtotal. -/
def stationTotal (presence : String → Bool) (vol : String → String → ℚ) (t : ℕ) : ℚ :=
  ((stationEntries presence vol t).map Prod.snd).sum

/-- All breakdown entries over stations `1..num_tuners`
(gang_assembly.py lines 223-245). -/
def reportEntries (presence : String → Bool) (vol : String → String → ℚ)
    (num_tuners : ℕ) : List (String × ℚ) :=
  (List.range num_tuners).flatMap (fun i => stationEntries presence vol (i + 1))

/-- gang_assembly.py line 245: the accumulated `total`. -/
def reportTotal (presence : String → Bool) (vol : String → String → ℚ)
    (num_tuners : ℕ) : ℚ :=
  ((reportEntries presence vol num_tuners).map Prod.snd).sum

/-- gang_assembly.py lines 200-258 (`run_interference_report`, printing
stripped): the per-check breakdown followed by the `"total"` entry. -/
def run_interference_report (presence : String → Bool) (vol : String → String → ℚ)
    (num_tuners : ℕ) : List (String × ℚ) :=
  reportEntries presence vol num_tuners ++ [("total", reportTotal presence vol num_tuners)]

/-- Python `dict.get(key, default)` on an association list. -/
def dictGet (d : List (String × ℚ)) (k : String) (default : ℚ) : ℚ :=
  (List.lookup k d).getD default

/-- gang_assembly.py lines 167-176: the interference gate of
`create_positioned_assembly` with `check_interference=True`: run the
report, and raise `AssemblyInterferenceError` carrying the full
breakdown when `interference.get("total", 0.0) >= 0.03 * num_housings`
(`Except.error` models the raise; the frame always has exactly
`num_housings` stations, since `housing_centers` has one entry per
housing). -/
def create_positioned_assembly_gate (presence : String → Bool)
    (vol : String → String → ℚ) (num_housings : ℕ) :
    Except (List (String × ℚ)) (List (String × ℚ)) :=
  let interference := run_interference_report presence vol num_housings
  let threshold : ℚ := 3/100 * (num_housings : ℚ)
  if threshold ≤ dictGet interference "total" 0 then Except.error interference
  else Except.ok interference

/-- The all-parts-present assembly (`all_parts` always contains the
frame and, for a fully built station, its wheel, peg head and post). -/
def presence_all : String → Bool := fun _ => true

/-- Scenario E volumes: `0.05 mm³` on the gear-mesh check (whose second
part is a peg head), `0` on the frame checks. -/
def volE : String → String → ℚ := fun _ b => if b = "frame" then 0 else 1/20

/-- Scenario D volumes: `0.02 mm³` on the gear-mesh check, `0` on the
frame checks. -/
def volD : String → String → ℚ := fun _ b => if b = "frame" then 0 else 1/50

/-! ### Helper lemmas for the aggregator -/

theorem filterMap_if {α β : Type} (q : α → Bool) (g : α → β) (l : List α) :
    l.filterMap (fun x => if q x then some (g x) else none) = (l.filter q).map g := by
  induction l with
  | nil => rfl
  | cons x xs ih =>
    by_cases h : q x
    · simp [List.filterMap_cons, List.filter_cons, h, ih]
    · simp [List.filterMap_cons, List.filter_cons, h, ih]

theorem sum_filter_mono {α : Type} (l : List α) (q q' : α → Bool) (g : α → ℚ)
    (hq : ∀ x, q x = true → q' x = true) (hg : ∀ x ∈ l, 0 ≤ g x) :
    ((l.filter q).map g).sum ≤ ((l.filter q').map g).sum := by
  induction l with
  | nil => simp
  | cons x xs ih =>
    have hgx := hg x (List.mem_cons_self _ _)
    have ih' := ih (fun y hy => hg y (List.mem_cons_of_mem _ hy))
    by_cases h : q x = true
    · rw [List.filter_cons, List.filter_cons, if_pos (by simp [h]), if_pos (by simp [hq x h])]
      simp only [List.map_cons, List.sum_cons]
      linarith
    · rw [List.filter_cons, if_neg (by simp [h])]
      by_cases h' : q' x = true
      · rw [List.filter_cons, if_pos (by simp [h'])]
        simp only [List.map_cons, List.sum_cons]
        linarith
      · rw [List.filter_cons, if_neg (by simp [h'])]
        exact ih'

theorem stationEntries_eq_filter (presence : String → Bool)
    (vol : String → String → ℚ) (t : ℕ) :
    stationEntries presence vol t
      = ((checksFor t).filter (fun c => presence c.1 && presence c.2.1)).map
          (fun c => (checkKey t c.2.2, vol c.1 c.2.1)) := by
  rw [stationEntries, filterMap_if]

theorem stationTotal_mono (p p' : String → Bool) (vol : String → String → ℚ) (t : ℕ)
    (hp : ∀ s, p s = true → p' s = true) (hv : ∀ a b, 0 ≤ vol a b) :
    stationTotal p vol t ≤ stationTotal p' vol t := by
  rw [stationTotal, stationTotal, stationEntries_eq_filter, stationEntries_eq_filter,
    List.map_map, List.map_map]
  refine sum_filter_mono (checksFor t) _ _ _ ?_ ?_
  · intro c hc
    have hc' : p c.1 = true ∧ p c.2.1 = true := by simpa using hc
    simp [hp _ hc'.1, hp _ hc'.2]
  · intro c _
    exact hv c.1 c.2.1

theorem reportTotal_succ (p : String → Bool) (vol : String → String → ℚ) (K : ℕ) :
    reportTotal p vol (K + 1) = reportTotal p vol K + stationTotal p vol (K + 1) := by
  rw [reportTotal, reportEntries, List.range_succ, List.flatMap_append, List.map_append,
    List.sum_append]
  simp [reportTotal, reportEntries, stationTotal]

theorem reportTotal_mono (p p' : String → Bool) (vol : String → String → ℚ) (K : ℕ)
    (hp : ∀ s, p s = true → p' s = true) (hv : ∀ a b, 0 ≤ vol a b) :
    reportTotal p vol K ≤ reportTotal p' vol K := by
  induction K with
  | zero => simp [reportTotal, reportEntries]
  | succ n ih =>
    rw [reportTotal_succ, reportTotal_succ]
    have := stationTotal_mono p p' vol (n + 1) hp hv
    linarith

theorem checkKey_ne_total (t : ℕ) (d : String) : checkKey t d ≠ "total" := by
  intro h
  have hlen : (checkKey t d).length = ("total" : String).length := by rw [h]
  rw [checkKey, String.length_append, String.length_append, String.length_append] at hlen
  have h6 : ("tuner_" : String).length = 6 := by decide
  have h1 : ("_" : String).length = 1 := by decide
  have h5 : ("total" : String).length = 5 := by decide
  rw [h6, h1, h5] at hlen
  omega

theorem stationEntries_key {p : String → Bool} {v : String → String → ℚ} {t : ℕ}
    (e : String × ℚ) (he : e ∈ stationEntries p v t) : ∃ d, e.1 = checkKey t d := by
  rw [stationEntries] at he
  obtain ⟨c, _, hfc⟩ := List.mem_filterMap.mp he
  by_cases h : p c.1 && p c.2.1
  · rw [if_pos h] at hfc
    refine ⟨c.2.2, ?_⟩
    rw [← Option.some.inj hfc]
  · rw [if_neg h] at hfc
    cases hfc

theorem reportEntries_key {p : String → Bool} {v : String → String → ℚ} {K : ℕ}
    (e : String × ℚ) (he : e ∈ reportEntries p v K) : ∃ t d, e.1 = checkKey t d := by
  rw [reportEntries] at he
  obtain ⟨i, _, hi⟩ := List.mem_flatMap.mp he
  obtain ⟨d, hd⟩ := stationEntries_key e hi
  exact ⟨i + 1, d, hd⟩

theorem lookup_append_total (l : List (String × ℚ)) (T : ℚ)
    (h : ∀ e ∈ l, e.1 ≠ "total") :
    List.lookup "total" (l ++ [("total", T)]) = some T := by
  induction l with
  | nil => simp [List.lookup]
  | cons e es ih =>
    have he := h e (List.mem_cons_self _ _)
    have hbeq : ("total" == e.1) = false := by
      rw [beq_eq_false_iff_ne]
      exact fun hh => he hh.symm
    obtain ⟨k, v⟩ := e
    rw [List.cons_append, List.lookup]
    rw [show (("total" == k) = false) from hbeq]
    exact ih (fun x hx => h x (List.mem_cons_of_mem _ hx))

theorem report_lookup_total (p : String → Bool) (v : String → String → ℚ) (K : ℕ) :
    dictGet (run_interference_report p v K) "total" 0 = reportTotal p v K := by
  rw [dictGet, run_interference_report, lookup_append_total]
  · rfl
  · intro e he
    obtain ⟨t, d, hd⟩ := reportEntries_key e he
    rw [hd]
    exact checkKey_ne_total t d

theorem peg_head_ne_frame (s : String) : ("peg_head_" ++ s) ≠ "frame" := by
  intro h
  have hlen : ("peg_head_" ++ s).length = ("frame" : String).length := by rw [h]
  rw [String.length_append] at hlen
  have h9 : ("peg_head_" : String).length = 9 := by decide
  have h5 : ("frame" : String).length = 5 := by decide
  rw [h9, h5] at hlen
  omega

/-- For a fully present station whose gear-mesh check measures `w` and
whose frame checks measure `0`, the station subtotal is `w`. -/
theorem stationTotal_meshvol (w : ℚ) (t : ℕ) :
    stationTotal presence_all (fun _ b => if b = "frame" then 0 else w) t = w := by
  rw [stationTotal, stationEntries_eq_filter]
  simp [checksFor, presence_all, peg_head_ne_frame]

/-! ### Claims about the Aggregator and the interference check -/

/-- C3.  With interference checking requested, `create_positioned_assembly`
raises `AssemblyInterferenceError` if and only if the reported total is
`≥ 0.03 mm³ × num_housings`; the raised error carries the full per-check
breakdown; `run_interference_report` itself returns that breakdown (with
its `"total"` entry) for any volumes without throwing; and in Scenario E
(one station measuring `0.05 mm³` on gear mesh) the gate raises and the
carried breakdown contains the `("tuner_1_gear_mesh", 0.05)` entry. -/
theorem c3_threshold_gate (p : String → Bool) (vol : String → String → ℚ) (K : ℕ) :
    (create_positioned_assembly_gate p vol K
        = Except.error (run_interference_report p vol K)
      ↔ 3/100 * (K : ℚ) ≤ reportTotal p vol K) ∧
    (create_positioned_assembly_gate p vol K
        = Except.ok (run_interference_report p vol K)
      ↔ reportTotal p vol K < 3/100 * (K : ℚ)) ∧
    (create_positioned_assembly_gate presence_all volE 1
        = Except.error (run_interference_report presence_all volE 1) ∧
      ("tuner_1_gear_mesh", (1/20 : ℚ)) ∈ run_interference_report presence_all volE 1) := by
  have hgate : ∀ (q : String → Bool) (v : String → String → ℚ) (n : ℕ),
      create_positioned_assembly_gate q v n
        = if 3/100 * (n : ℚ) ≤ reportTotal q v n
            then Except.error (run_interference_report q v n)
            else Except.ok (run_interference_report q v n) := by
    intro q v n
    rw [create_positioned_assembly_gate, report_lookup_total]
  have hE : reportTotal presence_all volE 1 = 1/20 := by
    have h01 : (1 : ℕ) = 0 + 1 := rfl
    rw [h01, reportTotal_succ]
    have h0 : reportTotal presence_all volE 0 = 0 := by
      simp [reportTotal, reportEntries]
    rw [h0, zero_add]
    have hv : volE = fun _ b => if b = "frame" then 0 else 1/20 := rfl
    rw [hv]
    exact stationTotal_meshvol (1/20) (0 + 1)
  refine ⟨⟨?_, ?_⟩, ⟨?_, ?_⟩, ?_, ?_⟩
  · intro hg
    by_contra hlt
    rw [hgate, if_neg hlt] at hg
    exact absurd hg (by simp)
  · intro h
    rw [hgate, if_pos h]
  · intro hg
    by_contra hge
    push_neg at hge
    rw [hgate, if_pos hge] at hg
    exact absurd hg (by simp)
  · intro h
    rw [hgate, if_neg (not_le.mpr h)]
  · rw [hgate, if_pos]
    rw [hE]
    norm_num
  · rw [run_interference_report]
    refine List.mem_append.mpr (Or.inl ?_)
    rw [reportEntries]
    refine List.mem_flatMap.mpr ⟨0, by simp, ?_⟩
    rw [stationEntries_eq_filter]
    refine List.mem_map.mpr
      ⟨("wheel_" ++ toString (0 + 1), "peg_head_" ++ toString (0 + 1), "gear mesh"), ?_, ?_⟩
    · refine List.mem_filter.mpr ⟨?_, ?_⟩
      · simp [checksFor]
      · simp [presence_all]
    · have hkey : checkKey (0 + 1) "gear mesh" = "tuner_1_gear_mesh" := by decide
      have hval : volE ("wheel_" ++ toString (0 + 1)) ("peg_head_" ++ toString (0 + 1))
          = 1/20 := by
        have hv : volE ("wheel_" ++ toString (0 + 1)) ("peg_head_" ++ toString (0 + 1))
            = if ("peg_head_" ++ toString (0 + 1)) = "frame" then 0 else 1/20 := rfl
        rw [hv, if_neg (peg_head_ne_frame _)]
      rw [hkey, hval]

/-- C7.  The reported total is the sum of the per-station subtotals, and
for `K` stations each contributing subtotal `w` the total is `K · w`
(Scenario D: 5 stations at `0.02 mm³` give `0.10` against threshold
`0.03 · 5 = 0.15`, hence Pass by `c3_threshold_gate`). -/
theorem c7_total_sum (p : String → Bool) (vol : String → String → ℚ) (K : ℕ) (w : ℚ) :
    reportTotal p vol K = ((List.range K).map (fun i => stationTotal p vol (i + 1))).sum ∧
    ((∀ i, i < K → stationTotal p vol (i + 1) = w) →
      reportTotal p vol K = (K : ℚ) * w) := by
  constructor
  · induction K with
    | zero => simp [reportTotal, reportEntries]
    | succ n ih =>
      rw [reportTotal_succ, ih, List.range_succ, List.map_append, List.sum_append]
      simp
  · intro h
    induction K with
    | zero => simp [reportTotal, reportEntries]
    | succ n ih =>
      rw [reportTotal_succ, ih (fun i hi => h i (Nat.lt_succ_of_lt hi)),
        h n (Nat.lt_succ_self n)]
      push_cast
      ring

/-- Witness for `c7_total_sum`: Scenario D, five stations each
contributing `0.02 mm³` (gear mesh only), total `5 · 0.02 = 0.10`. -/
theorem c7_witness : reportTotal presence_all volD 5 = ((5 : ℕ) : ℚ) * (1/50) :=
  (c7_total_sum presence_all volD 5 (1/50)).2 (fun i _ => by
    have hv : volD = fun _ b => if b = "frame" then 0 else 1/50 := rfl
    rw [hv]
    exact stationTotal_meshvol (1/50) (i + 1))

/-- C9.  In `run_interference_report` a named check is kept exactly when
both its part names are present (an absent part silently removes the
check: no breakdown entry, no contribution to the total, no error);
enlarging the set of present parts can only increase the total (with
nonnegative volumes), so a missing component biases the gate toward
Pass; and a station with all four involved parts present produces
exactly four entries. -/
theorem c9_missing_parts_skipped (p p' : String → Bool) (vol : String → String → ℚ)
    (t K : ℕ) :
    stationEntries p vol t
      = ((checksFor t).filter (fun c => p c.1 && p c.2.1)).map
          (fun c => (checkKey t c.2.2, vol c.1 c.2.1)) ∧
    ((∀ s, p s = true → p' s = true) → (∀ a b, 0 ≤ vol a b) →
      reportTotal p vol K ≤ reportTotal p' vol K) ∧
    (p ("wheel_" ++ toString t) = true → p ("peg_head_" ++ toString t) = true →
      p ("string_post_" ++ toString t) = true → p "frame" = true →
      (stationEntries p vol t).length = 4) := by
  refine ⟨stationEntries_eq_filter p vol t,
    fun hp hv => reportTotal_mono p p' vol K hp hv, ?_⟩
  intro hw hph hsp hf
  rw [stationEntries_eq_filter, List.length_map]
  simp [checksFor, hw, hph, hsp, hf]

/-- Witness for `c9_missing_parts_skipped`: an assembly with no parts
reports no more than the full assembly, and a fully present station
yields exactly four entries. -/
theorem c9_witness :
    reportTotal (fun _ => false) volD 1 ≤ reportTotal presence_all volD 1 ∧
    (stationEntries presence_all volD 1).length = 4 :=
  ⟨(c9_missing_parts_skipped (fun _ => false) presence_all volD 1 1).2.1
      (fun _ h => absurd h Bool.false_ne_true)
      (fun a b => by
        have hv : volD a b = if b = "frame" then 0 else 1/50 := rfl
        rw [hv]
        split <;> norm_num),
    (c9_missing_parts_skipped presence_all presence_all volD 1 1).2.2 rfl rfl rfl rfl⟩

/-- C10.  When the wheel (resp. worm) STEP file cannot be loaded,
`check_wheel_worm_interference` does not raise: it returns an
`InterferenceResult` with volume `0.0` but BOTH tolerance flags `false`
and a `"Could not load ..."` message — so at this interface a reported
volume of `0.0` does not imply the tolerance flags hold, unlike the
`volume == 0 → NONE` tier used for successful probes. -/
theorem c10_load_failure (worm_loaded : Bool) (pv gb fw sc rot : ℚ)
    (wheel_path worm_path : String) (fmt : ℚ → String) :
    check_wheel_worm_interference false worm_loaded pv gb fw sc rot wheel_path worm_path fmt
      = { mesh_rotation_deg := rot
          interference_volume_mm3 := 0
          within_backlash_tolerance := false
          within_manufacturing_tolerance := false
          message := "Could not load wheel STEP: " ++ wheel_path } ∧
    check_wheel_worm_interference true false pv gb fw sc rot wheel_path worm_path fmt
      = { mesh_rotation_deg := rot
          interference_volume_mm3 := 0
          within_backlash_tolerance := false
          within_manufacturing_tolerance := false
          message := "Could not load worm STEP: " ++ worm_path } :=
  ⟨rfl, rfl⟩
